import Mathlib

/-!
Verification of the toast notification subsystem of `src/toast/mod.rs`
(patternfly-yew): the `Toaster` broadcast agent, the `ToastViewer` store,
and its deadline scheduler (`schedule_cleanup` / `trigger_next_cleanup` /
`cleanup` / `remove_toast`).

Modelling conventions:
* `DateTime<Utc>` instants are unbounded integers (nanoseconds since epoch);
  `std::time::Duration` is a natural number of nanoseconds.
* `chrono::Duration::from_std` succeeds exactly when the duration is at most
  `i64::MAX` milliseconds, i.e. at most `9223372036854775807 * 1000000`
  nanoseconds; `chrono::Duration::to_std` succeeds exactly when the duration
  is non-negative. `DateTime<Utc> + chrono::Duration` is
  `checked_add_signed(...).expect(...)`: it panics when the sum leaves the
  `DateTime` range (`NaiveDateTime::MIN` to `NaiveDateTime::MAX`); the
  state-level operations model the non-aborting executions with unbounded
  addition, and `expiryOfChecked` captures the aborting boundary.
* The `BinaryHeap<Reverse<DateTime<Utc>>>` min-heap is modelled by the sorted
  (ascending) list of its elements: `push` is ordered insertion, `pop` takes
  the head. Instants are plain integers, so equal elements are
  indistinguishable and this captures the heap's observable behaviour.
* Each handler invocation (`add_toast`, `cleanup`, `remove_toast`) is atomic
  and samples the clock once, so every operation takes a single `now`
  parameter (the source calls `Self::now()` more than once inside a handler,
  but the handlers are synchronous and the spec reasons over simulated time).
* The `task : Option<TimeoutTask>` field is modelled as `task : Option Int`
  recording the fire instant of the held handle, together with a ghost field
  `armed : Nat` counting the live one-shot timers of the underlying timer
  service: `TimeoutService::spawn` creates one, the fire that precedes a
  `Cleanup` message consumes one. The ghost field is what makes
  "at most one timer is armed" a fact to prove rather than a typing artifact.
-/

namespace PatternflyToast

/-- `Toast` (src/toast/mod.rs, lines 63-70): title, optional timeout.
The `r#type`, `body` and `actions` fields are opaque payloads passed through
untouched and play no role in any claim, so they are omitted. The timeout is
a `std::time::Duration`, modelled as nanoseconds. -/
structure Toast where
  title : String
  timeout : Option Nat
deriving DecidableEq, Repr

/-- `ToastEntry` (lines 185-189): id, rendered alert (opaque, omitted), and
the absolute expiry instant `timeout : Option<DateTime<Utc>>`. -/
structure ToastEntry where
  id : Nat
  timeout : Option Int
deriving DecidableEq, Repr

/-- The state of a `ToastViewer` (lines 192-201): live entries, the id
counter, the optional armed timer (holding its fire instant), the pending
min-heap as a sorted list, and the ghost count of live underlying timers. -/
structure State where
  alerts : List ToastEntry
  counter : Nat
  task : Option Int
  timeouts : List Int
  armed : Nat
deriving DecidableEq, Repr

/-- `ToastViewer::create` (lines 213-224): empty store, counter 0, no task,
empty heap. -/
def initState : State :=
  { alerts := [], counter := 0, task := none, timeouts := [], armed := 0 }

/-- `chrono::Duration::from_std`: succeeds iff the std duration is at most
`i64::MAX` milliseconds; the result is the same span as a signed value. -/
def durationFromStd (n : Nat) : Option Int :=
  if n ≤ 9223372036854775807 * 1000000 then some (n : Int) else none

/-- Ordered insertion into the sorted-list model of the min-heap
(`BinaryHeap::push`). -/
def heapPush (t : Int) : List Int → List Int
  | [] => [t]
  | x :: xs => if t ≤ x then t :: x :: xs else x :: heapPush t xs

/-- The `while let Some(next) = self.timeouts.pop()` loop of
`trigger_next_cleanup` (lines 309-323): pop the minimum; if
`(timeout - now).to_std()` is `Ok` — i.e. `now ≤ timeout` — spawn a timer
for it and stop (the popped instant is NOT pushed back); otherwise discard
it and continue. Returns the remaining heap and the instant a timer was
spawned for, if any. -/
def triggerLoop (now : Int) : List Int → List Int × Option Int
  | [] => ([], none)
  | t :: rest => if now ≤ t then (rest, some t) else triggerLoop now rest

/-- `trigger_next_cleanup` (lines 301-324): if a task is already held,
return immediately; otherwise run the pop loop and, when it yields an
instant, store the spawned task (one more live timer). -/
def triggerNextCleanup (s : State) (now : Int) : State :=
  if s.task.isSome then s
  else
    match triggerLoop now s.timeouts with
    | (ts, some t) => { s with timeouts := ts, task := some t, armed := s.armed + 1 }
    | (ts, none) => { s with timeouts := ts }

/-- `schedule_cleanup` (lines 294-299): push the instant onto the heap, then
`trigger_next_cleanup`. -/
def scheduleCleanup (s : State) (timeout : Int) (now : Int) : State :=
  triggerNextCleanup { s with timeouts := heapPush timeout s.timeouts } now

/-- The expiry computation of `add_toast` (lines 266-269):
`toast.timeout.and_then(|t| chrono::Duration::from_std(t).ok()).map(|t| now + t)`,
with the `DateTime + Duration` addition taken as unbounded integer
addition. This is the non-aborting arithmetic; the aborting boundary of
the source's addition is captured by `expiryOfChecked` below. -/
def expiryOf (toast : Toast) (now : Int) : Option Int :=
  (toast.timeout.bind durationFromStd).map (fun d => now + d)

/-- The nanosecond timestamp of `chrono::NaiveDateTime::MAX`
(`262143-12-31T23:59:59.999999999`): 8210298412799 seconds past the Unix
epoch plus 999999999 nanoseconds. -/
def maxInstantNanos : Int := 8210298412799 * 1000000000 + 999999999

/-- The nanosecond timestamp of `chrono::NaiveDateTime::MIN`
(`-262144-01-01T00:00:00`): -8334632851200 seconds past the Unix epoch. -/
def minInstantNanos : Int := -8334632851200 * 1000000000

/-- The expiry computation of `add_toast` with chrono's checked arithmetic:
`DateTime<Utc> + chrono::Duration` (line 269) is
`checked_add_signed(rhs).expect(...)` and panics when the sum leaves the
`DateTime` range. The outer `Option` is the panic: `none` means `add_toast`
aborts at the addition and inserts nothing; `some e` means the insertion
proceeds with expiry `e`, and then the unbounded model agrees
(`expiryOf toast now = e`). -/
def expiryOfChecked (toast : Toast) (now : Int) : Option (Option Int) :=
  match toast.timeout.bind durationFromStd with
  | none => some none
  | some d =>
      if minInstantNanos ≤ now + d ∧ now + d ≤ maxInstantNanos then
        some (some (now + d))
      else none

/-- `add_toast` (lines 264-292): compute the expiry, take `id = counter` and
increment the counter, push the new entry, and if the expiry is set call
`schedule_cleanup` with it. -/
def addToast (s : State) (toast : Toast) (now : Int) : State :=
  let timeout := expiryOf toast now
  let id := s.counter
  let s1 := { s with counter := s.counter + 1,
                     alerts := s.alerts ++ [{ id := id, timeout := timeout }] }
  match timeout with
  | some t => scheduleCleanup s1 t now
  | none => s1

/-- `remove_toast` (lines 326-328): retain the entries whose id differs. -/
def removeToast (s : State) (id : Nat) : State :=
  { s with alerts := s.alerts.filter (fun e => e.id ≠ id) }

/-- The retain predicate of `cleanup` (lines 336-342): keep an entry iff it
has no expiry or its expiry is strictly in the future. -/
def keepAlert (now : Int) (e : ToastEntry) : Bool :=
  match e.timeout with
  | some timeout => timeout > now
  | none => true

/-- `cleanup` (lines 330-343): drop the fired task's handle
(`self.task = None`), re-arm via `trigger_next_cleanup`, then reap the
expired entries. -/
def cleanup (s : State) (now : Int) : State :=
  let s1 := triggerNextCleanup { s with task := none } now
  { s1 with alerts := s1.alerts.filter (keepAlert now) }

/-- A tick: the armed one-shot timer fires (consuming one live timer) and
delivers `ToastViewerMsg::Cleanup`, which runs `cleanup`. -/
def onTick (s : State) (now : Int) : State :=
  cleanup { s with armed := s.armed - 1 } now

/-- The public operations driving a `ToastViewer`
(`ToastViewerMsg`, lines 203-207): a display request
(`Perform(ShowToast) -> add_toast`), a timer tick (`Cleanup -> cleanup`),
and an explicit close (`Close(id) -> remove_toast`). Each carries the
simulated time at which it is processed where the handler reads the clock. -/
inductive Op where
  | display (toast : Toast) (now : Int)
  | tick (now : Int)
  | close (id : Nat)
deriving DecidableEq, Repr

/-- One step of the `ToastViewer::update` dispatch (lines 226-232). -/
def step (s : State) : Op → State
  | Op.display toast now => addToast s toast now
  | Op.tick now => onTick s now
  | Op.close id => removeToast s id

/-- Run a sequence of public operations. -/
def runOps (s : State) : List Op → State
  | [] => s
  | op :: rest => runOps (step s op) rest

/-- The identities assigned by the display operations of a run, in order:
each `add_toast` assigns the current counter. -/
def assignedIds (s : State) : List Op → List Nat
  | [] => []
  | op :: rest =>
      match op with
      | Op.display _ _ => s.counter :: assignedIds (step s op) rest
      | _ => assignedIds (step s op) rest

/-! ## The `Toaster` broadcast agent (lines 94-153)

The agent's state is the `viewer : HashSet<HandlerId>` set; publishing
(`show_toast`) reads an arbitrary element of that set via
`self.viewer.iter().next()`. `HashSet` iteration order is unspecified
(it depends on the hasher's random seed), so the set is modelled as the
list of its elements in registration order and the `iter().next()` call as
a chooser function `pick` which any run of the program fixes; a chooser is
admissible when it returns `none` exactly on the empty set and otherwise
some element of the set — exactly the contract of `HashSet::iter().next()`.
Only respondable handler ids (bridges, i.e. potential viewers) enter the
set, so handler ids are plain naturals. -/

/-- The `Toaster` agent state (lines 94-101): the set of registered
viewers, as the list of its elements in registration order. -/
structure Toaster where
  viewer : List Nat
deriving DecidableEq, Repr

/-- `Toaster::create` (lines 109-114): empty viewer set. -/
def initToaster : Toaster := { viewer := [] }

/-- The observable effects of the agent: `link.respond(viewer, ShowToast)`
delivers the toast to one handler; the `window().alert_with_message(...)`
branch signals a dropped toast. -/
inductive Effect where
  | deliver (h : Nat) (t : Toast)
  | dropSignal (t : Toast)
deriving DecidableEq, Repr

/-- Admissibility of a `HashSet::iter().next()` chooser: `none` exactly on
the empty set, otherwise some element of the set. -/
def Admissible (pick : List Nat → Option Nat) : Prop :=
  (∀ l, pick l = none ↔ l = []) ∧ (∀ l h, pick l = some h → h ∈ l)

/-- `show_toast` (lines 140-152): take `viewer.iter().next()`; if some
viewer exists respond to it with `ShowToast(toast)`, otherwise raise the
dropped-toast alert. The state is not modified (`&self`). -/
def showToast (pick : List Nat → Option Nat) (st : Toaster) (toast : Toast) :
    List Effect :=
  match pick st.viewer with
  | some v => [Effect.deliver v toast]
  | none => [Effect.dropSignal toast]

/-- `connected` (lines 118-122): insert a respondable handler id. -/
def connected (st : Toaster) (h : Nat) : Toaster :=
  if h ∈ st.viewer then st else { viewer := st.viewer ++ [h] }

/-- `disconnected` (lines 132-136): remove the handler id. -/
def disconnected (st : Toaster) (h : Nat) : Toaster :=
  { viewer := st.viewer.filter (fun x => x ≠ h) }

/-- The agent's external events: registration, deregistration, and a
published toast (`handle_input` with `Request::Toast`). -/
inductive TOp where
  | connect (h : Nat)
  | disconnect (h : Nat)
  | input (t : Toast)
deriving DecidableEq, Repr

/-- One step of the agent: the successor state and the effects emitted. -/
def tstep (pick : List Nat → Option Nat) (st : Toaster) :
    TOp → Toaster × List Effect
  | TOp.connect h => (connected st h, [])
  | TOp.disconnect h => (disconnected st h, [])
  | TOp.input t => (st, showToast pick st t)

/-- Run a sequence of agent events, ignoring the emitted effects. -/
def runToaster (pick : List Nat → Option Nat) (st : Toaster) :
    List TOp → Toaster
  | [] => st
  | op :: rest => runToaster pick (tstep pick st op).1 rest

/-- How the subscriber side consumes a batch of effects: a delivered toast
becomes a `Perform(ShowToast)` message, i.e. `add_toast` on the viewer
state; a drop signal touches no viewer state. -/
def applyEffects (v : State) (effs : List Effect) (now : Int) : State :=
  effs.foldl
    (fun v e =>
      match e with
      | Effect.deliver _ t => addToast v t now
      | Effect.dropSignal _ => v) v

/-! ## Helper lemmas about the scheduler loop and the heap model -/

/-- The pop loop is exactly: drop the strictly-past prefix of the popped
sequence, arm the first remaining instant (removing it), keep the rest. -/
theorem triggerLoop_eq (now : Int) (l : List Int) :
    triggerLoop now l =
      ((l.dropWhile fun t => decide (t < now)).tail,
       (l.dropWhile fun t => decide (t < now)).head?) := by
  induction l with
  | nil => simp [triggerLoop]
  | cons x xs ih =>
      by_cases h : now ≤ x
      · have hx : ¬ (x < now) := not_lt.mpr h
        simp [triggerLoop, h, List.dropWhile_cons, hx]
      · have hx : x < now := lt_of_not_le h
        simp [triggerLoop, h, List.dropWhile_cons, hx, ih]

/-- If the pop loop armed nothing, it drained the heap. -/
theorem triggerLoop_none (now : Int) (l : List Int) (ts : List Int)
    (h : triggerLoop now l = (ts, none)) : ts = [] := by
  induction l with
  | nil => simp [triggerLoop] at h; exact h
  | cons x xs ih =>
      by_cases hx : now ≤ x
      · simp [triggerLoop, hx] at h
      · simp only [triggerLoop, if_neg hx] at h
        exact ih h

/-- A not-yet-due instant in the heap survives the pop loop: it either
stays in the residual heap or becomes the armed instant. -/
theorem triggerLoop_mem (now x : Int) (l : List Int)
    (hm : x ∈ l) (hx : now ≤ x) :
    x ∈ (triggerLoop now l).1 ∨ (triggerLoop now l).2 = some x := by
  induction l with
  | nil => cases hm
  | cons y ys ih =>
      by_cases hy : now ≤ y
      · rcases List.mem_cons.mp hm with h | h
        · right; simp [triggerLoop, hy, h]
        · left; simp [triggerLoop, hy, h]
      · rcases List.mem_cons.mp hm with h | h
        · exact absurd (h ▸ hx) hy
        · simpa [triggerLoop, hy] using ih h

/-- If every instant in the heap is strictly past, the pop loop drains the
heap and arms nothing. -/
theorem triggerLoop_all_past (now : Int) (l : List Int)
    (h : ∀ x ∈ l, x < now) : triggerLoop now l = ([], none) := by
  induction l with
  | nil => rfl
  | cons y ys ih =>
      have hy : ¬ now ≤ y := not_le.mpr (h y (List.mem_cons_self y ys))
      simp only [triggerLoop, if_neg hy]
      exact ih fun x hx => h x (List.mem_cons_of_mem y hx)

/-- Pushing onto the sorted-list heap is, as a multiset operation, just
adding the element. -/
theorem heapPush_perm (t : Int) (l : List Int) :
    List.Perm (heapPush t l) (t :: l) := by
  induction l with
  | nil => exact List.Perm.refl _
  | cons x xs ih =>
      by_cases h : t ≤ x
      · simp only [heapPush, if_pos h]
        exact List.Perm.refl _
      · simp only [heapPush, if_neg h]
        exact (ih.cons x).trans (List.Perm.swap t x xs)

theorem mem_heapPush (t x : Int) (l : List Int) :
    x ∈ heapPush t l ↔ x = t ∨ x ∈ l := by
  constructor
  · intro hx
    have := (heapPush_perm t l).subset hx
    simpa using this
  · intro hx
    apply (heapPush_perm t l).symm.subset
    simpa using hx

/-- `trigger_next_cleanup` never touches the live entries. -/
theorem triggerNextCleanup_alerts (s : State) (now : Int) :
    (triggerNextCleanup s now).alerts = s.alerts := by
  by_cases h : s.task.isSome
  · simp [triggerNextCleanup, h]
  · simp only [triggerNextCleanup, if_neg h]
    rcases hl : triggerLoop now s.timeouts with ⟨ts, arm⟩
    cases arm <;> simp

/-- `trigger_next_cleanup` never touches the id counter. -/
theorem triggerNextCleanup_counter (s : State) (now : Int) :
    (triggerNextCleanup s now).counter = s.counter := by
  by_cases h : s.task.isSome
  · simp [triggerNextCleanup, h]
  · simp only [triggerNextCleanup, if_neg h]
    rcases hl : triggerLoop now s.timeouts with ⟨ts, arm⟩
    cases arm <;> simp

theorem scheduleCleanup_alerts (s : State) (t now : Int) :
    (scheduleCleanup s t now).alerts = s.alerts := by
  simpa [scheduleCleanup] using
    triggerNextCleanup_alerts { s with timeouts := heapPush t s.timeouts } now

theorem scheduleCleanup_counter (s : State) (t now : Int) :
    (scheduleCleanup s t now).counter = s.counter := by
  simpa [scheduleCleanup] using
    triggerNextCleanup_counter { s with timeouts := heapPush t s.timeouts } now

theorem addToast_counter (s : State) (toast : Toast) (now : Int) :
    (addToast s toast now).counter = s.counter + 1 := by
  unfold addToast
  rcases expiryOf toast now with _ | t
  · simp
  · simpa using scheduleCleanup_counter _ t now

theorem addToast_alerts (s : State) (toast : Toast) (now : Int) :
    (addToast s toast now).alerts =
      s.alerts ++ [{ id := s.counter, timeout := expiryOf toast now }] := by
  unfold addToast
  rcases expiryOf toast now with _ | t
  · simp
  · simpa using scheduleCleanup_alerts _ t now

theorem onTick_alerts (s : State) (now : Int) :
    (onTick s now).alerts = s.alerts.filter (keepAlert now) := by
  simp [onTick, cleanup, triggerNextCleanup_alerts]

theorem onTick_counter (s : State) (now : Int) :
    (onTick s now).counter = s.counter := by
  simp [onTick, cleanup, triggerNextCleanup_counter]

theorem step_counter (s : State) (op : Op) : s.counter ≤ (step s op).counter := by
  cases op with
  | display toast now => rw [step, addToast_counter]; omega
  | tick now => rw [step, onTick_counter]
  | close id => exact le_refl _

/-! ## The single-timer invariant -/

/-- The inductive invariant of the scheduler: the number of live underlying
timers is 1 exactly when a task handle is held (0 otherwise), and a
non-empty pending heap implies a held task. -/
def Inv (s : State) : Prop :=
  s.armed = (if s.task.isSome then 1 else 0) ∧ (s.timeouts ≠ [] → s.task.isSome)

theorem triggerNextCleanup_inv_of_none (s : State) (now : Int)
    (htask : s.task = none) (harm : s.armed = 0) :
    Inv (triggerNextCleanup s now) := by
  have h : ¬ s.task.isSome := by simp [htask]
  simp only [triggerNextCleanup, if_neg h]
  rcases hl : triggerLoop now s.timeouts with ⟨ts, arm⟩
  cases arm with
  | some t => exact ⟨by simp [harm], by simp⟩
  | none =>
      have hts : ts = [] := triggerLoop_none now s.timeouts ts hl
      exact ⟨by simp [htask, harm], by simp [hts]⟩

theorem scheduleCleanup_inv (s : State) (t now : Int) (h : Inv s) :
    Inv (scheduleCleanup s t now) := by
  rw [scheduleCleanup]
  by_cases htask : s.task.isSome
  · rw [triggerNextCleanup, if_pos htask]
    exact ⟨h.1, fun _ => htask⟩
  · have hnone : s.task = none := Option.not_isSome_iff_eq_none.mp htask
    exact triggerNextCleanup_inv_of_none _ now hnone
      (by have h1 := h.1; simpa [htask] using h1)

theorem addToast_inv (s : State) (toast : Toast) (now : Int) (h : Inv s) :
    Inv (addToast s toast now) := by
  unfold addToast
  rcases expiryOf toast now with _ | t
  · exact ⟨h.1, h.2⟩
  · exact scheduleCleanup_inv _ t now ⟨h.1, h.2⟩

theorem onTick_inv (s : State) (now : Int) (h : Inv s) :
    Inv (onTick s now) := by
  unfold onTick cleanup
  have harm : s.armed - 1 = 0 := by
    have h1 := h.1
    by_cases ht : s.task.isSome <;> simp [ht] at h1 <;> omega
  have htrig :
      Inv (triggerNextCleanup
        { alerts := s.alerts, counter := s.counter, task := none,
          timeouts := s.timeouts, armed := s.armed - 1 } now) :=
    triggerNextCleanup_inv_of_none _ now rfl harm
  exact ⟨htrig.1, htrig.2⟩

theorem step_inv (s : State) (op : Op) (h : Inv s) : Inv (step s op) := by
  cases op with
  | display toast now => exact addToast_inv s toast now h
  | tick now => exact onTick_inv s now h
  | close id => exact ⟨h.1, h.2⟩

theorem runOps_inv (s : State) (ops : List Op) (h : Inv s) :
    Inv (runOps s ops) := by
  induction ops generalizing s with
  | nil => exact h
  | cons op rest ih => exact ih (step s op) (step_inv s op h)

/-! ## Identity assignment -/

/-- The number of display operations in a run. -/
def countDisplays : List Op → Nat
  | [] => 0
  | Op.display _ _ :: rest => countDisplays rest + 1
  | _ :: rest => countDisplays rest

theorem assignedIds_eq_range (s : State) (ops : List Op) :
    assignedIds s ops = List.range' s.counter (countDisplays ops) := by
  induction ops generalizing s with
  | nil => rfl
  | cons op rest ih =>
      cases op with
      | display toast now =>
          have hc : (step s (Op.display toast now)).counter = s.counter + 1 := by
            simp [step, addToast_counter]
          simp only [assignedIds, countDisplays, List.range'_succ]
          rw [ih (step s (Op.display toast now)), hc]
      | tick now =>
          have hc : (step s (Op.tick now)).counter = s.counter := by
            simp [step, onTick_counter]
          simp only [assignedIds, countDisplays]
          rw [ih (step s (Op.tick now)), hc]
      | close id =>
          simp only [assignedIds, countDisplays]
          rw [ih (step s (Op.close id))]
          rfl

/-! ## Claim theorems -/

/-- C1: Scheduler state invariant — between public operations (schedule,
on_tick, close, display), at most one timer is armed at any observable
point, for every sequence of operations; and whenever the pending heap of
deadlines is non-empty, a timer is armed. `armed` counts the live one-shot
timers of the underlying timer service, and `task.isSome` is the held
handle; both parts hold in every state reachable from the initial
`ToastViewer` state. -/
theorem C1_scheduler_single_timer (ops : List Op) :
    (runOps initState ops).armed ≤ 1 ∧
      ((runOps initState ops).timeouts ≠ [] →
        (runOps initState ops).task.isSome) := by
  have h := runOps_inv initState ops ⟨rfl, fun hne => absurd rfl hne⟩
  refine ⟨?_, h.2⟩
  have h1 := h.1
  by_cases ht : (runOps initState ops).task.isSome <;> simp [ht] at h1 <;> omega

/-- Witness for C1 at a concrete run: two displays with lifetimes 5 and 7
at time 0 leave the heap non-empty (holding 7) and one timer armed. -/
theorem C1_scheduler_single_timer_witness :
    (runOps initState [Op.display { title := "a", timeout := some 5 } 0,
        Op.display { title := "b", timeout := some 7 } 0]).armed ≤ 1 ∧
      (runOps initState [Op.display { title := "a", timeout := some 5 } 0,
        Op.display { title := "b", timeout := some 7 } 0]).task.isSome :=
  ⟨(C1_scheduler_single_timer _).1,
   (C1_scheduler_single_timer _).2 (by decide)⟩

/-- C2: Reap postcondition — after a tick at time `now`, an entry is in the
store iff it was there before and its expiry is either absent or strictly
after `now`; equivalently an entry is removed iff its expiry is set and
`≤ now`. In particular an entry with expiry `E` survives a tick at a time
`< E`, is absent after a tick at a time `≥ E`, and an entry with no expiry
is never removed by a tick. -/
theorem C2_reap_characterization (s : State) (now : Int) (e : ToastEntry) :
    e ∈ (onTick s now).alerts ↔
      e ∈ s.alerts ∧ ∀ t, e.timeout = some t → now < t := by
  rw [onTick_alerts, List.mem_filter]
  constructor
  · rintro ⟨hm, hk⟩
    refine ⟨hm, fun t ht => ?_⟩
    rw [keepAlert, ht] at hk
    simpa using hk
  · rintro ⟨hm, hk⟩
    refine ⟨hm, ?_⟩
    rcases ht : e.timeout with _ | t
    · simp [keepAlert, ht]
    · simp only [keepAlert, ht, gt_iff_lt, decide_eq_true_eq]
      exact hk t ht

/-- Witness for C2: an entry expiring at 7 survives a tick delivered at 5. -/
theorem C2_reap_characterization_witness :
    ({ id := 0, timeout := some 7 } : ToastEntry) ∈
      (onTick { alerts := [{ id := 0, timeout := some 7 }], counter := 1,
                task := some 7, timeouts := [], armed := 1 } 5).alerts :=
  (C2_reap_characterization _ 5 _).mpr
    ⟨by decide, by intro t ht; simp at ht; omega⟩

/-- C7: close is idempotent and total — `close(id)` removes exactly the
entries carrying that identity (an entry survives iff it was present and
its id differs, so the entry with that identity is removed when present
and every other entry is kept); `close(id)` twice equals `close(id)` once;
and when no entry carries the id, `close(id)` is a no-op on the whole
state (and it never fails: it is a total function). -/
theorem C7_close_idempotent (s : State) (id : Nat) :
    (∀ e, e ∈ (removeToast s id).alerts ↔ e ∈ s.alerts ∧ e.id ≠ id) ∧
      removeToast (removeToast s id) id = removeToast s id ∧
      ((∀ e ∈ s.alerts, e.id ≠ id) → removeToast s id = s) := by
  refine ⟨?_, ?_, ?_⟩
  · intro e
    simp [removeToast, List.mem_filter]
  · simp [removeToast, List.filter_filter]
  · intro h
    have hf : s.alerts.filter (fun e => e.id ≠ id) = s.alerts :=
      List.filter_eq_self.mpr (fun e he => by simpa using h e he)
    simp only [removeToast]
    rw [hf]

/-- A concrete store holding one persistent entry with id 0, used by
witnesses. -/
def store0 : State :=
  { alerts := [{ id := 0, timeout := none }], counter := 1, task := none,
    timeouts := [], armed := 0 }

/-- Witness for C7 at a concrete store: closing the present id 0 removes
that entry, and closing the never-issued id 7 is an idempotent no-op. -/
theorem C7_close_idempotent_witness :
    ({ id := 0, timeout := none } : ToastEntry) ∉ (removeToast store0 0).alerts ∧
      removeToast (removeToast store0 7) 7 = removeToast store0 7 ∧
      removeToast store0 7 = store0 :=
  ⟨fun hmem => absurd rfl (((C7_close_idempotent store0 0).1 _).mp hmem).2,
   (C7_close_idempotent store0 7).2.1,
   (C7_close_idempotent store0 7).2.2 (by decide)⟩

/-- C8: Identity assignment — over any sequence of public operations, the
identities assigned by the successive displays are exactly the consecutive
naturals starting at the current counter (`List.range'`), hence strictly
monotonically increasing, unique among all entries ever created, and never
reused; from the initial state they are `0, 1, 2, ...`. -/
theorem C8_display_ids (s : State) (ops : List Op) :
    assignedIds s ops = List.range' s.counter (countDisplays ops) ∧
      List.Sorted (· < ·) (assignedIds s ops) ∧
      (assignedIds s ops).Nodup := by
  refine ⟨assignedIds_eq_range s ops, ?_, ?_⟩ <;> rw [assignedIds_eq_range]
  · exact List.pairwise_lt_range' _ _
  · exact List.nodup_range' _ _

/-- With no held task, `trigger_next_cleanup` discards exactly the
strictly-past instants among the popped minima and arms the first remaining
one, removing it from the heap. -/
theorem triggerNextCleanup_none_eq (s : State) (now : Int)
    (h : s.task = none) :
    (triggerNextCleanup s now).task =
        (s.timeouts.dropWhile fun t => decide (t < now)).head? ∧
      (triggerNextCleanup s now).timeouts =
        (s.timeouts.dropWhile fun t => decide (t < now)).tail := by
  have hns : ¬ s.task.isSome := by simp [h]
  rw [triggerNextCleanup, if_neg hns, triggerLoop_eq]
  rcases hh : (s.timeouts.dropWhile fun t => decide (t < now)).head? with _ | t
  · exact ⟨h, rfl⟩
  · exact ⟨rfl, rfl⟩

/-- A scheduler state with a timer armed for 3 and pending heap `[5]`. -/
def armedHeap5 : State :=
  { alerts := [], counter := 0, task := some 3, timeouts := [5], armed := 1 }

/-- A scheduler state with a timer armed for 3 and pending heap `[7]`. -/
def armedHeap7 : State :=
  { alerts := [], counter := 0, task := some 3, timeouts := [7], armed := 1 }

/-- An idle scheduler state with pending heap `[5]`. -/
def idleHeap5 : State :=
  { alerts := [], counter := 0, task := none, timeouts := [5], armed := 0 }

/-- An idle scheduler state with pending heap `[3]`. -/
def idleHeap3 : State :=
  { alerts := [], counter := 0, task := none, timeouts := [3], armed := 0 }

/-- A scheduler state with a timer armed for 2 and pending heap `[4]`. -/
def armedFor2 : State :=
  { alerts := [], counter := 0, task := some 2, timeouts := [4], armed := 1 }

/-- C3, counterexample: the claim says a tick pops every now-or-past
instant as due (leaving nothing for an instant equal to `now`) and that a
popped not-yet-due instant is re-pushed onto the heap. The code does
neither: with pending `[5]` and a tick at time 5, the instant 5 — due
under the claim's "now-or-past" reading — is armed, not drained, so a
timer is armed where the claim predicts none; and with pending `[7]` and
a tick at time 5, the code arms 7 but leaves the heap empty where the
claim predicts the heap still holds 7. -/
theorem C3_tick_cex :
    (onTick armedHeap5 5).task ≠ none ∧
      (onTick armedHeap5 5).task = some 5 ∧
      (onTick armedHeap7 5).task = some 7 ∧
      (onTick armedHeap7 5).timeouts = [] := by
  refine ⟨?_, rfl, rfl, rfl⟩
  decide

/-- C3, amended: a tick clears the armed-timer handle, then pops the heap
minima in ascending order, discarding those strictly before `now`; upon
reaching the first instant at-or-after `now` it arms a timer for it and
removes it from the heap (it is not re-pushed); if every pending instant
is strictly past, the heap is drained and no timer is armed. Reaping then
keeps exactly the entries with no expiry or expiry strictly after `now`,
and the id counter is untouched. -/
theorem C3_tick_characterization (s : State) (now : Int) :
    (onTick s now).task =
        (s.timeouts.dropWhile fun t => decide (t < now)).head? ∧
      (onTick s now).timeouts =
        (s.timeouts.dropWhile fun t => decide (t < now)).tail ∧
      (onTick s now).alerts = s.alerts.filter (keepAlert now) ∧
      (onTick s now).counter = s.counter := by
  have h := triggerNextCleanup_none_eq
    { alerts := s.alerts, counter := s.counter, task := none,
      timeouts := s.timeouts, armed := s.armed - 1 } now rfl
  exact ⟨h.1, h.2, onTick_alerts s now, onTick_counter s now⟩

/-- C4, counterexample: the claim says `schedule(instant)` pushes the
instant onto the pending heap and, when no timer is armed, arms one for
the minimum of the heap. Scheduling the already-past instant 3 at time 5
on the idle scheduler leaves no timer armed and an empty heap: the instant
is neither armed for nor left pending. -/
theorem C4_schedule_cex :
    (scheduleCleanup initState 3 5).task = none ∧
      (scheduleCleanup initState 3 5).timeouts = [] := by
  exact ⟨rfl, rfl⟩

/-- C4, amended: `schedule(instant)` inserts the instant into the pending
heap (as a multiset, one more copy). If a timer is already armed — for any
instant, in particular an earlier-or-equal one — the rest of the state is
untouched. If no timer is armed, the scheduler pops the strictly-past
minima, discarding them, and arms a timer for the first at-or-after-`now`
instant, which is removed from the heap; if all pending instants are
strictly past, the heap drains and no timer is armed. -/
theorem C4_schedule_characterization (s : State) (t now : Int) :
    List.Perm (heapPush t s.timeouts) (t :: s.timeouts) ∧
      (s.task.isSome = true →
        scheduleCleanup s t now = { s with timeouts := heapPush t s.timeouts }) ∧
      (s.task = none →
        (scheduleCleanup s t now).task =
            ((heapPush t s.timeouts).dropWhile fun x => decide (x < now)).head? ∧
          (scheduleCleanup s t now).timeouts =
            ((heapPush t s.timeouts).dropWhile fun x => decide (x < now)).tail ∧
          (scheduleCleanup s t now).alerts = s.alerts ∧
          (scheduleCleanup s t now).counter = s.counter) := by
  refine ⟨heapPush_perm t s.timeouts, fun h => ?_, fun h => ?_⟩
  · rw [scheduleCleanup, triggerNextCleanup, if_pos h]
  · have hh := triggerNextCleanup_none_eq
      { s with timeouts := heapPush t s.timeouts } now h
    exact ⟨hh.1, hh.2, scheduleCleanup_alerts s t now, scheduleCleanup_counter s t now⟩

/-- Witness for C4: with a timer armed for 2, scheduling 9 only inserts it
into the heap; on the idle scheduler, scheduling the future instant 6 at
time 4 arms a timer for 6. -/
theorem C4_schedule_characterization_witness :
    scheduleCleanup armedFor2 9 0 =
      { alerts := [], counter := 0, task := some 2, timeouts := [4, 9], armed := 1 } ∧
      (scheduleCleanup initState 6 4).task = some 6 := by
  constructor
  · rw [(C4_schedule_characterization armedFor2 9 0).2.1 rfl]
    decide
  · rw [((C4_schedule_characterization initState 6 4).2.2 rfl).1]
    decide

/-- C10, counterexample: the claim says that when the arming routine runs
with no timer armed and every pending instant at-or-before `now`, it
drains them all without arming any timer. With pending `[5]` at time 5
(so every pending instant is at-or-before `now`), the code arms a timer
for 5 instead of draining it. -/
theorem C10_drain_cex :
    (triggerNextCleanup idleHeap5 5).task = some 5 ∧
      (triggerNextCleanup idleHeap5 5).task ≠ none := by
  exact ⟨rfl, by decide⟩

/-- C10, amended: when the arming routine runs with no timer armed and
every pending instant strictly before `now`, it drains all of them without
arming any timer, leaving the heap empty and the rest of the state (in
particular `task = none` and the live-timer count) unchanged; consequently
a strictly-past deadline scheduled in that situation is drained the same
way and never produces a tick of its own — the corresponding expired entry
is only reaped when a tick caused by some other deadline arrives. -/
theorem C10_drain_past (s : State) (now : Int) (h1 : s.task = none)
    (h2 : ∀ x ∈ s.timeouts, x < now) :
    triggerNextCleanup s now = { s with timeouts := [] } ∧
      ∀ t, t < now → scheduleCleanup s t now = { s with timeouts := [] } := by
  have hns : ¬ s.task.isSome := by simp [h1]
  constructor
  · rw [triggerNextCleanup, if_neg hns, triggerLoop_all_past now s.timeouts h2]
  · intro t ht
    have h2' : ∀ x ∈ heapPush t s.timeouts, x < now := by
      intro x hx
      rcases (mem_heapPush t x s.timeouts).mp hx with h | h
      · omega
      · exact h2 x h
    rw [scheduleCleanup, triggerNextCleanup, if_neg hns,
      triggerLoop_all_past now _ h2']

/-- Witness for C10: the idle scheduler with pending `[3]` at time 5
drains the heap without arming, and scheduling the past instant 2 does
the same. -/
theorem C10_drain_past_witness :
    triggerNextCleanup idleHeap3 5 = { idleHeap3 with timeouts := [] } ∧
      scheduleCleanup idleHeap3 2 5 = { idleHeap3 with timeouts := [] } :=
  have h := C10_drain_past idleHeap3 5 rfl (by decide)
  ⟨h.1, h.2 2 (by decide)⟩

/-- `List.head?` is an admissible `HashSet::iter().next()` outcome: it
returns `none` exactly on the empty set and otherwise an element of it. -/
theorem admissible_head : Admissible (fun l => l.head?) := by
  constructor
  · intro l
    cases l <;> simp
  · intro l h hh
    cases l with
    | nil => simp at hh
    | cons a as =>
        simp at hh
        simp [hh]

/-- C5, counterexample: the claim says a publish is delivered to the most
recently registered subscriber. `show_toast` reads
`self.viewer.iter().next()` from a `HashSet`, whose iteration order is
arbitrary: under the admissible iteration order that yields the list head,
registering subscriber 1 and then subscriber 2 and publishing delivers to
subscriber 1, not to the most recently registered subscriber 2. -/
theorem C5_publish_cex :
    Admissible (fun l => l.head?) ∧
      runToaster (fun l => l.head?) initToaster
        [TOp.connect 1, TOp.connect 2] = { viewer := [1, 2] } ∧
      showToast (fun l => l.head?) { viewer := [1, 2] }
        { title := "m", timeout := none } =
        [Effect.deliver 1 { title := "m", timeout := none }] ∧
      (1 : Nat) ≠ 2 :=
  ⟨admissible_head, rfl, rfl, by decide⟩

/-- C5, amended: for every publish while at least one subscriber is
registered, the display event is delivered to exactly one subscriber — an
element of the registered set chosen by the (unspecified) `HashSet`
iteration order; when exactly one subscriber is registered, it is that
one. -/
theorem C5_publish_delivers_one (pick : List Nat → Option Nat)
    (st : Toaster) (toast : Toast)
    (hA : Admissible pick) (hne : st.viewer ≠ []) :
    (∃ h, h ∈ st.viewer ∧
        showToast pick st toast = [Effect.deliver h toast]) ∧
      ∀ h, st.viewer = [h] →
        showToast pick st toast = [Effect.deliver h toast] := by
  obtain ⟨v, hv⟩ : ∃ v, pick st.viewer = some v := by
    rcases hp : pick st.viewer with _ | v
    · exact absurd ((hA.1 st.viewer).mp hp) hne
    · exact ⟨v, rfl⟩
  constructor
  · exact ⟨v, hA.2 _ v hv, by simp [showToast, hv]⟩
  · intro h hh
    have hm := hA.2 _ v hv
    rw [hh] at hm
    simp at hm
    simp [showToast, hv, hm]

/-- Witness for C5: with the single subscriber 3 registered, a publish is
delivered to 3. -/
theorem C5_publish_delivers_one_witness :
    showToast (fun l => l.head?) { viewer := [3] }
      { title := "w", timeout := none } =
      [Effect.deliver 3 { title := "w", timeout := none }] :=
  (C5_publish_delivers_one (fun l => l.head?) { viewer := [3] }
    { title := "w", timeout := none } admissible_head (by decide)).2 3 rfl

/-- C6: publish with zero registered subscribers — the emitted effects are
exactly one delivery-failure signal (the `window().alert_with_message`
branch), so the signal is observed exactly once and nothing is delivered;
the subscriber-side store is unaffected; the agent state is unchanged, and
since the agent keeps no queue, a delivery effect of any step carries
exactly the toast published in that very step — a subscriber registered
later never retroactively receives the dropped notification. `show_toast`
is a total function: it never blocks and never fails. -/
theorem C6_publish_no_subscriber (pick : List Nat → Option Nat)
    (st : Toaster) (toast : Toast) (v : State) (now : Int)
    (hA : Admissible pick) (h0 : st.viewer = []) :
    showToast pick st toast = [Effect.dropSignal toast] ∧
      applyEffects v (showToast pick st toast) now = v ∧
      (tstep pick st (TOp.input toast)).1 = st ∧
      ∀ st2 op h2 t2,
        Effect.deliver h2 t2 ∈ (tstep pick st2 op).2 → op = TOp.input t2 := by
  have hp : pick st.viewer = none := (hA.1 st.viewer).mpr h0
  refine ⟨by simp [showToast, hp], by simp [showToast, hp, applyEffects],
    rfl, ?_⟩
  intro st2 op h2 t2 hmem
  cases op with
  | connect h3 => simp [tstep] at hmem
  | disconnect h3 => simp [tstep] at hmem
  | input t3 =>
      simp only [tstep, showToast] at hmem
      rcases hp2 : pick st2.viewer with _ | v2 <;> rw [hp2] at hmem <;>
        simp at hmem
      rw [hmem.2]

/-- Witness for C6: publishing on the empty viewer set emits exactly one
drop signal and leaves the initial store untouched. -/
theorem C6_publish_no_subscriber_witness :
    showToast (fun l => l.head?) initToaster { title := "q", timeout := none } =
      [Effect.dropSignal { title := "q", timeout := none }] ∧
      applyEffects initState
        (showToast (fun l => l.head?) initToaster
          { title := "q", timeout := none }) 0 = initState :=
  have h := C6_publish_no_subscriber (fun l => l.head?) initToaster
    { title := "q", timeout := none } initState 0 admissible_head rfl
  ⟨h.1, h.2.1⟩

/-- A computed expiry is never before `now`: it is `now` plus a
non-negative lifetime. -/
theorem expiryOf_ge (toast : Toast) (now t : Int)
    (h : expiryOf toast now = some t) : now ≤ t := by
  unfold expiryOf at h
  rcases htt : toast.timeout with _ | n
  · rw [htt] at h
    simp at h
  · rw [htt] at h
    by_cases hb : n ≤ 9223372036854775807 * 1000000
    · simp [durationFromStd, hb] at h
      omega
    · simp [durationFromStd, hb] at h

/-- Scheduling a not-yet-past instant leaves it represented in the
scheduler: it is either still in the pending heap or it is the armed
instant. -/
theorem scheduleCleanup_registered (s : State) (t now : Int) (h : now ≤ t) :
    t ∈ (scheduleCleanup s t now).timeouts ∨
      (scheduleCleanup s t now).task = some t := by
  rw [scheduleCleanup]
  by_cases htask : (({ s with timeouts := heapPush t s.timeouts } : State)).task.isSome
  · rw [triggerNextCleanup, if_pos htask]
    exact Or.inl ((mem_heapPush t t s.timeouts).mpr (Or.inl rfl))
  · have hm := triggerLoop_mem now t (heapPush t s.timeouts)
      ((mem_heapPush t t s.timeouts).mpr (Or.inl rfl)) h
    rw [triggerNextCleanup, if_neg htask]
    rcases hl : triggerLoop now (heapPush t s.timeouts) with ⟨ts, arm⟩
    rw [hl] at hm
    cases arm with
    | some t2 =>
        rcases hm with hm | hm
        · exact Or.inl hm
        · simp at hm
          simp [hm]
    | none =>
        rcases hm with hm | hm
        · exact Or.inl hm
        · simp at hm

/-- Off the panic path, the checked expiry computation agrees with the
unbounded one used inside `addToast`. -/
theorem expiryOfChecked_eq (toast : Toast) (now : Int) (e : Option Int)
    (h : expiryOfChecked toast now = some e) : expiryOf toast now = e := by
  unfold expiryOfChecked at h
  unfold expiryOf
  rcases hb : toast.timeout.bind durationFromStd with _ | d
  · rw [hb] at h
    simp at h
    simp [← h]
  · rw [hb] at h
    by_cases hr : minInstantNanos ≤ now + d ∧ now + d ≤ maxInstantNanos
    · simp [hr] at h
      simp [← h]
    · simp [hr] at h

/-- C9, counterexample: the claim says the expiry is `now + lifetime`
whenever the notification carries a lifetime. A lifetime of
`i64::MAX` milliseconds plus one nanosecond carries a lifetime, but
`chrono::Duration::from_std(...).ok()` yields `None` for it (before any
addition is attempted, so no panic either), and the inserted entry has no
expiry: the notification becomes persistent. -/
theorem C9_expiry_cex :
    (Toast.timeout { title := "x", timeout := some 9223372036854775807000001 }).isSome = true ∧
      expiryOfChecked { title := "x", timeout := some 9223372036854775807000001 } 0 =
        some none ∧
      (addToast initState
        { title := "x", timeout := some 9223372036854775807000001 } 0).alerts =
        [{ id := 0, timeout := none }] := by
  exact ⟨rfl, by decide, by decide⟩

/-- C9, amended: for every displayed notification the expiry is settled
exactly once, at insertion time, by `chrono`'s checked arithmetic
(`expiryOfChecked`): it is `now + lifetime` when the carried lifetime is
representable (at most `i64::MAX` milliseconds, the range of
`chrono::Duration::from_std`) and the sum stays within the `DateTime`
range; it is absent when the notification carries no lifetime or an
unrepresentably large one (`from_std` fails, `.ok()` gives `None`); and
when the lifetime is representable but the sum leaves the `DateTime`
range, the addition panics — `add_toast` aborts and no entry is inserted
(the outer `none`). Whenever the insertion does happen, the inserted
entry carries exactly the computed expiry, the expiry is never recomputed
afterwards (every operation keeps an entry verbatim or creates a fresh
one), and a set expiry is registered with the scheduler at insertion: it
ends up in the pending heap or as the armed instant. -/
theorem C9_expiry_characterization (s : State) (toast : Toast) (now : Int) :
    (∀ e, expiryOfChecked toast now = some e →
        expiryOf toast now = e ∧
        (addToast s toast now).alerts =
          s.alerts ++ [{ id := s.counter, timeout := e }]) ∧
      (toast.timeout = none → expiryOfChecked toast now = some none) ∧
      (∀ n, toast.timeout = some n → n ≤ 9223372036854775807 * 1000000 →
        minInstantNanos ≤ now + (n : Int) → now + (n : Int) ≤ maxInstantNanos →
        expiryOfChecked toast now = some (some (now + (n : Int)))) ∧
      (∀ n, toast.timeout = some n → ¬ n ≤ 9223372036854775807 * 1000000 →
        expiryOfChecked toast now = some none) ∧
      (∀ n, toast.timeout = some n → n ≤ 9223372036854775807 * 1000000 →
        ¬ (minInstantNanos ≤ now + (n : Int) ∧ now + (n : Int) ≤ maxInstantNanos) →
        expiryOfChecked toast now = none) ∧
      (∀ t, expiryOfChecked toast now = some (some t) →
        t ∈ (addToast s toast now).timeouts ∨
          (addToast s toast now).task = some t) ∧
      (∀ op e, e ∈ (step s op).alerts →
        e ∈ s.alerts ∨ ∃ t2 n2, op = Op.display t2 n2 ∧
          e = { id := s.counter, timeout := expiryOf t2 n2 }) := by
  refine ⟨?_, ?_, ?_, ?_, ?_, ?_, ?_⟩
  · intro e he
    refine ⟨expiryOfChecked_eq toast now e he, ?_⟩
    rw [addToast_alerts, expiryOfChecked_eq toast now e he]
  · intro h
    simp [expiryOfChecked, h]
  · intro n h hb h1 h2
    simp [expiryOfChecked, h, durationFromStd, hb, h1, h2]
  · intro n h hb
    simp [expiryOfChecked, h, durationFromStd, hb]
  · intro n h hb hr
    simp [expiryOfChecked, h, durationFromStd, hb, hr]
  · intro t ht
    have he : expiryOf toast now = some t := expiryOfChecked_eq toast now (some t) ht
    have hge := expiryOf_ge toast now t he
    unfold addToast
    rw [he]
    exact scheduleCleanup_registered _ t now hge
  · intro op e he
    cases op with
    | display t2 n2 =>
        rw [step, addToast_alerts] at he
        rcases List.mem_append.mp he with he | he
        · exact Or.inl he
        · simp at he
          exact Or.inr ⟨t2, n2, rfl, he⟩
    | tick n2 =>
        rw [step, onTick_alerts] at he
        exact Or.inl (List.mem_filter.mp he).1
    | close id2 =>
        rw [step] at he
        exact Or.inl (List.mem_filter.mp he).1

/-- Witness for C9: displaying a toast with lifetime 1000 at time 0 does
not panic, inserts an entry with expiry 1000 and registers 1000 with the
scheduler; a lifetime of 10^22 ns (within the `from_std` range but past
the `DateTime` range from time 0) panics. -/
theorem C9_expiry_characterization_witness :
    expiryOfChecked { title := "t", timeout := some 1000 } 0 = some (some 1000) ∧
      (addToast initState { title := "t", timeout := some 1000 } 0).alerts =
        [{ id := 0, timeout := some 1000 }] ∧
      ((1000 : Int) ∈
          (addToast initState { title := "t", timeout := some 1000 } 0).timeouts ∨
        (addToast initState { title := "t", timeout := some 1000 } 0).task =
          some 1000) ∧
      expiryOfChecked { title := "p", timeout := some 10000000000000000000000 } 0 =
        none := by
  have h := C9_expiry_characterization initState
    { title := "t", timeout := some 1000 } 0
  have hp := C9_expiry_characterization initState
    { title := "p", timeout := some 10000000000000000000000 } 0
  have hc : expiryOfChecked { title := "t", timeout := some 1000 } 0 =
      some (some ((0 : Int) + (1000 : Nat))) :=
    h.2.2.1 1000 rfl (by decide) (by decide) (by decide)
  refine ⟨by simpa using hc, ?_, ?_, ?_⟩
  · rw [(h.1 (some ((0 : Int) + (1000 : Nat))) hc).2]
    decide
  · have hreg := h.2.2.2.2.2.1 ((0 : Int) + (1000 : Nat)) hc
    simpa using hreg
  · exact hp.2.2.2.2.1 10000000000000000000000 rfl (by decide) (by decide)

end PatternflyToast
